import Mathlib

/-!
Verification of the Conflict-Model exchange simulator
(`src/conflict_model.ipynb`, cells 13, 15, 17): a graph of settlements
with a food stock and a blocked flag, trade links between them, and the
production / trade / simulation functions `produce_food`, `trade_food`,
`simulate_economy` operating on that graph.

Quantities are modelled as integers (the base scenario only ever holds
integer stocks); the trade logic uses only `+`, `-`, `min` and strict
comparisons, so nothing depends on the carrier beyond linear order.
-/

namespace ConflictModel

/-- A settlement (graph node): `pos = (longitude, latitude)`, `country`,
`blocked` flag, and the food stock (`resources["food"]`, the only resource
populated and the only one the simulator touches). -/
structure Settlement where
  pos : Int × Int
  country : String
  blocked : Bool
  food : Int
deriving DecidableEq, Inhabited

/-- A trade link (graph edge): the unordered pair of endpoint names as the
orientation networkx happens to report, plus the `distance` and `capacity`
attributes set at construction time (unused by the trade logic). -/
structure TradeLink where
  cityA : String
  cityB : String
  distance : Int
  capacity : Int
deriving DecidableEq, Inhabited

/-- The graph `G`: nodes as an association list keyed by the unique capital
name (insertion order preserved, as in networkx), and the edge list. -/
structure Graph where
  nodes : List (String × Settlement)
  edges : List TradeLink
deriving DecidableEq, Inhabited

/-- First-match association-list lookup, i.e. `G.nodes[name]`. -/
def lookupS (name : String) : List (String × Settlement) → Option Settlement
  | [] => none
  | (k, s) :: rest => if k = name then some s else lookupS name rest

/-- `G.nodes[name]["resources"]["food"]` (0 when the name is absent; in the
source the name always exists). -/
def getFood (G : Graph) (name : String) : Int :=
  match lookupS name G.nodes with
  | some s => s.food
  | none => 0

/-- The node-name list of a graph. -/
def nodeKeys (G : Graph) : List String := G.nodes.map Prod.fst

/-- Well-formed graph, as networkx guarantees at construction: node names
are unique and every edge endpoint is a node. -/
def WF (G : Graph) : Prop :=
  (nodeKeys G).Nodup ∧ ∀ e ∈ G.edges, e.cityA ∈ nodeKeys G ∧ e.cityB ∈ nodeKeys G

instance (G : Graph) : Decidable (WF G) := by
  unfold WF; infer_instance

/-- `produce_food`: each non-blocked city gains `production_amount` food. -/
def produce_food (G : Graph) (production_amount : Int) : Graph :=
  { G with nodes := G.nodes.map (fun p =>
      (p.1, if p.2.blocked then p.2
            else { p.2 with food := p.2.food + production_amount })) }

/-- One dict update `food_flows[city] += d` (Python dict semantics: rebind
the key's value, leave the rest). -/
def updFlow (flows : String → Int) (city : String) (d : Int) : String → Int :=
  fun c => if c = city then flows city + d else flows c

/-- The body of the edge loop of `trade_food` for one edge: skip if either
endpoint is blocked, otherwise move `min (surplus, deficit, cap)` from the
strictly-above-threshold side to the strictly-below side, accumulated into
the net-flow map. (A missing endpoint cannot occur in networkx; it is
modelled as no trade.) -/
def edgeStep (G : Graph) (trade_threshold max_trade_per_edge : Int)
    (flows : String → Int) (e : TradeLink) : String → Int :=
  match lookupS e.cityA G.nodes, lookupS e.cityB G.nodes with
  | some sA, some sB =>
    if sA.blocked || sB.blocked then flows
    else
      let foodA := sA.food
      let foodB := sB.food
      if foodA > trade_threshold ∧ foodB < trade_threshold then
        let surplusA := foodA - trade_threshold
        let deficitB := trade_threshold - foodB
        let flowAB := min (min surplusA deficitB) max_trade_per_edge
        updFlow (updFlow flows e.cityA (-flowAB)) e.cityB flowAB
      else if foodB > trade_threshold ∧ foodA < trade_threshold then
        let surplusB := foodB - trade_threshold
        let deficitA := trade_threshold - foodA
        let flowBA := min (min surplusB deficitA) max_trade_per_edge
        updFlow (updFlow flows e.cityB (-flowBA)) e.cityA flowBA
      else flows
  | _, _ => flows

/-- The `food_flows` map after the whole edge loop of `trade_food`:
initialized to 0 for every city, then one `edgeStep` per edge. All stock
reads are against the graph as of the start of the call. -/
def tradeFlows (G : Graph) (trade_threshold max_trade_per_edge : Int) :
    String → Int :=
  G.edges.foldl (edgeStep G trade_threshold max_trade_per_edge) (fun _ => 0)

/-- `trade_food`: compute the net-flow map over all edges, then apply each
settlement's accumulated net flow to its food stock exactly once. -/
def trade_food (G : Graph) (trade_threshold max_trade_per_edge : Int) : Graph :=
  { G with nodes := G.nodes.map (fun p =>
      (p.1, { p.2 with
              food := p.2.food + tradeFlows G trade_threshold max_trade_per_edge p.1 })) }

/-- One turn of `simulate_economy`: production (amount 10) then trade
(threshold 100, cap 20), in that order. -/
def stepSim (G : Graph) : Graph := trade_food (produce_food G 10) 100 20

/-- `simulate_economy`: run `steps` sequential turns. -/
def simulate_economy (G : Graph) : Nat → Graph
  | 0 => G
  | n + 1 => simulate_economy (stepSim G) n

/-- Total food over all settlements. -/
def totalFood (G : Graph) : Int := (G.nodes.map (fun p => p.2.food)).sum

/-! ### Concrete graphs used as test inputs -/

/-- A settlement at the origin with the given blocked flag and food stock. -/
def mkS (b : Bool) (f : Int) : Settlement :=
  { pos := (0, 0), country := "", blocked := b, food := f }

/-- A trade link between two named settlements. -/
def mkE (a b : String) : TradeLink :=
  { cityA := a, cityB := b, distance := 1, capacity := 10 }

/-- The literal scenario of the spec: A at 130, B at 80, one link. -/
def pairG : Graph :=
  { nodes := [("A", mkS false 130), ("B", mkS false 80)], edges := [mkE "A" "B"] }

/-- A hub above threshold with seven below-threshold neighbors. -/
def hubG : Graph :=
  { nodes := [("X", mkS false 110), ("B1", mkS false 0), ("B2", mkS false 0),
              ("B3", mkS false 0), ("B4", mkS false 0), ("B5", mkS false 0),
              ("B6", mkS false 0), ("B7", mkS false 0)],
    edges := [mkE "X" "B1", mkE "X" "B2", mkE "X" "B3", mkE "X" "B4",
              mkE "X" "B5", mkE "X" "B6", mkE "X" "B7"] }

/-- A below-threshold pair A, B plus a surplus city C linked to A. -/
def triG : Graph :=
  { nodes := [("A", mkS false 90), ("B", mkS false 90), ("C", mkS false 130)],
    edges := [mkE "A" "B", mkE "A" "C"] }

/-- A three-city line with both ends blocked around an unblocked middle. -/
def blockG : Graph :=
  { nodes := [("A", mkS true 150), ("B", mkS false 50), ("C", mkS true 40)],
    edges := [mkE "A" "B", mkE "B" "C"] }

/-- Two blocked cities joined by a link. -/
def allBlockG : Graph :=
  { nodes := [("A", mkS true 150), ("B", mkS true 50)], edges := [mkE "A" "B"] }

/-- A settlement exactly at the threshold linked to a surplus one. -/
def atThrG : Graph :=
  { nodes := [("A", mkS false 100), ("B", mkS false 130)], edges := [mkE "A" "B"] }

/-- Three cities with two links, for the edge-order permutation test. -/
def permG : Graph :=
  { nodes := [("A", mkS false 130), ("B", mkS false 80), ("C", mkS false 60)],
    edges := [mkE "A" "B", mkE "A" "C"] }

/-! ### The per-edge decomposition of the net-flow map -/

/-- Indicator: 1 when `c = x`, else 0. -/
def ind (c x : String) : Int := if c = x then 1 else 0

/-- The flow moved when the side at stock `hi` is strictly above the
threshold and the side at `lo` strictly below:
`min (surplus, deficit, cap)`. -/
def flowAmt (t k hi lo : Int) : Int := min (min (hi - t) (t - lo)) k

/-- The net contribution of a single edge to city `c`'s accumulated flow:
what one `edgeStep` adds at key `c`. -/
def edgeDelta (G : Graph) (t k : Int) (e : TradeLink) (c : String) : Int :=
  match lookupS e.cityA G.nodes, lookupS e.cityB G.nodes with
  | some sA, some sB =>
    if sA.blocked || sB.blocked then 0
    else if sA.food > t ∧ sB.food < t then
      flowAmt t k sA.food sB.food * (ind c e.cityB - ind c e.cityA)
    else if sB.food > t ∧ sA.food < t then
      flowAmt t k sB.food sA.food * (ind c e.cityA - ind c e.cityB)
    else 0
  | _, _ => 0

lemma updFlow_pair (flows : String → Int) (a b c : String) (f : Int) :
    updFlow (updFlow flows a (-f)) b f c = flows c + f * (ind c b - ind c a) := by
  unfold updFlow ind
  by_cases hcb : c = b
  · subst hcb
    by_cases hca : c = a
    · subst hca; simp
    · simp [hca]
  · by_cases hca : c = a
    · subst hca
      have hab : ¬ c = b := hcb
      simp [hcb, hab]
    · simp [hcb, hca]

lemma edgeStep_eq (G : Graph) (t k : Int) (flows : String → Int) (e : TradeLink)
    (c : String) :
    edgeStep G t k flows e c = flows c + edgeDelta G t k e c := by
  unfold edgeStep edgeDelta
  rcases h1 : lookupS e.cityA G.nodes with _ | sA
  · simp
  · rcases h2 : lookupS e.cityB G.nodes with _ | sB
    · simp
    · by_cases hb : (sA.blocked || sB.blocked) = true
      · simp [hb]
      · simp only [hb, if_false, Bool.not_eq_true] at *
        simp only [hb, Bool.false_eq_true, if_false]
        by_cases h3 : sA.food > t ∧ sB.food < t
        · simp only [h3, if_true]
          exact updFlow_pair flows e.cityA e.cityB c _
        · simp only [h3, if_false]
          by_cases h4 : sB.food > t ∧ sA.food < t
          · simp only [h4, if_true]
            exact updFlow_pair flows e.cityB e.cityA c _
          · simp [h4]

lemma foldl_edgeStep (G : Graph) (t k : Int) (es : List TradeLink)
    (flows : String → Int) (c : String) :
    (es.foldl (edgeStep G t k) flows) c
      = flows c + (es.map fun e => edgeDelta G t k e c).sum := by
  induction es generalizing flows with
  | nil => simp
  | cons e es ih =>
    simp only [List.foldl_cons, List.map_cons, List.sum_cons, ih, edgeStep_eq]
    ring

lemma tradeFlows_eq (G : Graph) (t k : Int) (c : String) :
    tradeFlows G t k c = (G.edges.map fun e => edgeDelta G t k e c).sum := by
  unfold tradeFlows
  rw [foldl_edgeStep]
  simp

lemma edgeDelta_not_incident (G : Graph) (t k : Int) (e : TradeLink) (c : String)
    (hA : c ≠ e.cityA) (hB : c ≠ e.cityB) : edgeDelta G t k e c = 0 := by
  unfold edgeDelta ind
  rcases lookupS e.cityA G.nodes with _ | sA <;> rcases lookupS e.cityB G.nodes with _ | sB <;>
    simp [hA, hB]

/-! ### Sum helpers -/

lemma sum_map_addF {α : Type} (l : List α) (f g : α → Int) :
    (l.map fun x => f x + g x).sum = (l.map f).sum + (l.map g).sum := by
  induction l with
  | nil => simp
  | cons a l ih => simp [ih]; ring

lemma sum_map_subF {α : Type} (l : List α) (f g : α → Int) :
    (l.map fun x => f x - g x).sum = (l.map f).sum - (l.map g).sum := by
  induction l with
  | nil => simp
  | cons a l ih => simp [ih]; ring

lemma sum_map_mulF {α : Type} (l : List α) (r : Int) (f : α → Int) :
    (l.map fun x => r * f x).sum = r * (l.map f).sum := by
  induction l with
  | nil => simp
  | cons a l ih => simp [ih]; ring

lemma sum_map_zeroF {α : Type} (l : List α) :
    (l.map fun _ => (0 : Int)).sum = 0 := by
  induction l with
  | nil => rfl
  | cons a l ih => simp [ih]

lemma sum_map_swapF {α β : Type} (l : List α) (m : List β) (f : α → β → Int) :
    (l.map fun a => (m.map fun b => f a b).sum).sum
      = (m.map fun b => (l.map fun a => f a b).sum).sum := by
  induction l with
  | nil => simp [sum_map_zeroF]
  | cons a l ih =>
    simp only [List.map_cons, List.sum_cons, ih, sum_map_addF]

lemma sum_ind_zero (l : List String) (x : String) (hx : x ∉ l) :
    (l.map fun c => ind c x).sum = 0 := by
  induction l with
  | nil => rfl
  | cons a l ih =>
    simp only [List.mem_cons, not_or] at hx
    have : ind a x = 0 := by unfold ind; simp [Ne.symm, hx.1]
    simp [this, ih hx.2]

lemma sum_ind_one (l : List String) (x : String) (hnd : l.Nodup) (hx : x ∈ l) :
    (l.map fun c => ind c x).sum = 1 := by
  induction l with
  | nil => cases hx
  | cons a l ih =>
    rcases List.mem_cons.mp hx with h | h
    · subst h
      have hnotin : x ∉ l := (List.nodup_cons.mp hnd).1
      have : ind x x = 1 := by unfold ind; simp
      simp [this, sum_ind_zero l x hnotin]
    · have ha : a ≠ x := by
        rintro rfl; exact (List.nodup_cons.mp hnd).1 h
      have : ind a x = 0 := by unfold ind; simp [ha]
      simp [this, ih (List.nodup_cons.mp hnd).2 h]

/-! ### Lookup / map lemmas -/

lemma lookupS_map (g : String → Settlement → Settlement)
    (l : List (String × Settlement)) (name : String) :
    lookupS name (l.map fun p => (p.1, g p.1 p.2)) = (lookupS name l).map (g name) := by
  induction l with
  | nil => rfl
  | cons p l ih =>
    simp only [List.map_cons]
    unfold lookupS
    by_cases h : p.1 = name
    · subst h; simp
    · simp [h, ih]

lemma lookupS_of_mem (l : List (String × Settlement)) (name : String) (s : Settlement)
    (hnd : (l.map Prod.fst).Nodup) (hmem : (name, s) ∈ l) :
    lookupS name l = some s := by
  induction l with
  | nil => cases hmem
  | cons p l ih =>
    rcases List.mem_cons.mp hmem with h | h
    · subst h; unfold lookupS; simp
    · have hp : p.1 ≠ name := by
        intro he
        have : name ∈ l.map Prod.fst := List.mem_map.mpr ⟨(name, s), h, rfl⟩
        rw [List.map_cons, List.nodup_cons, he] at hnd
        exact hnd.1 this
      unfold lookupS
      simp only [hp, if_false]
      exact ih (by rw [List.map_cons, List.nodup_cons] at hnd; exact hnd.2) h

lemma mem_of_lookupS (l : List (String × Settlement)) (name : String) (s : Settlement)
    (h : lookupS name l = some s) : (name, s) ∈ l := by
  induction l with
  | nil => cases h
  | cons p l ih =>
    unfold lookupS at h
    by_cases hp : p.1 = name
    · simp only [hp, if_true, Option.some.injEq] at h
      subst h
      exact List.mem_cons.mpr (Or.inl (by rw [← hp]))
    · simp only [hp, if_false] at h
      exact List.mem_cons.mpr (Or.inr (ih h))

lemma nodeKeys_produce (G : Graph) (a : Int) :
    nodeKeys (produce_food G a) = nodeKeys G := by
  unfold nodeKeys produce_food
  simp [List.map_map]

lemma nodeKeys_trade (G : Graph) (t k : Int) :
    nodeKeys (trade_food G t k) = nodeKeys G := by
  unfold nodeKeys trade_food
  simp [List.map_map]

lemma lookupS_produce (G : Graph) (a : Int) (name : String) :
    lookupS name (produce_food G a).nodes
      = (lookupS name G.nodes).map
          (fun s => if s.blocked then s else { s with food := s.food + a }) := by
  unfold produce_food
  exact lookupS_map (fun _ s => if s.blocked then s else { s with food := s.food + a })
    G.nodes name

lemma lookupS_trade (G : Graph) (t k : Int) (name : String) :
    lookupS name (trade_food G t k).nodes
      = (lookupS name G.nodes).map
          (fun s => { s with food := s.food + tradeFlows G t k name }) := by
  unfold trade_food
  exact lookupS_map (fun n s => { s with food := s.food + tradeFlows G t k n })
    G.nodes name

/-! ### Per-edge balance and blocked-settlement lemmas -/

lemma edgeDelta_pair (G : Graph) (t k : Int) (e : TradeLink) :
    edgeDelta G t k e e.cityA + edgeDelta G t k e e.cityB = 0 := by
  have hind1 : ∀ f : Int, f * (ind e.cityA e.cityB - ind e.cityA e.cityA)
      + f * (ind e.cityB e.cityB - ind e.cityB e.cityA) = 0 := by
    intro f
    unfold ind
    by_cases h : e.cityA = e.cityB
    · simp [h]
    · simp [h, Ne.symm h]
  have hind2 : ∀ f : Int, f * (ind e.cityA e.cityA - ind e.cityA e.cityB)
      + f * (ind e.cityB e.cityA - ind e.cityB e.cityB) = 0 := by
    intro f
    unfold ind
    by_cases h : e.cityA = e.cityB
    · simp [h]
    · simp [h, Ne.symm h]
  unfold edgeDelta
  rcases h1 : lookupS e.cityA G.nodes with _ | sA
  · simp
  rcases h2 : lookupS e.cityB G.nodes with _ | sB
  · simp
  by_cases hb : (sA.blocked || sB.blocked) = true
  · simp [hb]
  simp only [hb, Bool.false_eq_true, if_false]
  by_cases h3 : sA.food > t ∧ sB.food < t
  · simp only [h3, if_true]
    exact hind1 _
  simp only [h3, if_false]
  by_cases h4 : sB.food > t ∧ sA.food < t
  · simp only [h4, if_true]
    exact hind2 _
  simp [h4]

lemma edgeDelta_blocked (G : Graph) (t k : Int) (e : TradeLink) (name : String)
    (s : Settlement) (h : lookupS name G.nodes = some s) (hb : s.blocked = true)
    (hinc : e.cityA = name ∨ e.cityB = name) :
    edgeDelta G t k e name = 0 := by
  unfold edgeDelta
  rcases hinc with hA | hB
  · rw [hA] at *
    rcases h2 : lookupS e.cityB G.nodes with _ | sB <;> simp [h, h2, hb]
  · rw [hB] at *
    rcases h1 : lookupS e.cityA G.nodes with _ | sA <;> simp [h, h1, hb]

lemma edgeStep_blocked (G : Graph) (t k : Int) (e : TradeLink) (name : String)
    (s : Settlement) (h : lookupS name G.nodes = some s) (hb : s.blocked = true)
    (hinc : e.cityA = name ∨ e.cityB = name) (flows : String → Int) :
    edgeStep G t k flows e = flows := by
  unfold edgeStep
  rcases hinc with hA | hB
  · rw [hA] at *
    rcases h2 : lookupS e.cityB G.nodes with _ | sB <;> simp [h, h2, hb]
  · rw [hB] at *
    rcases h1 : lookupS e.cityA G.nodes with _ | sA <;> simp [h, h1, hb]

lemma tradeFlows_blocked (G : Graph) (t k : Int) (name : String) (s : Settlement)
    (h : lookupS name G.nodes = some s) (hb : s.blocked = true) :
    tradeFlows G t k name = 0 := by
  rw [tradeFlows_eq]
  apply List.sum_eq_zero
  intro x hx
  obtain ⟨e, he, rfl⟩ := List.mem_map.mp hx
  by_cases hA : name = e.cityA
  · exact edgeDelta_blocked G t k e name s h hb (Or.inl hA.symm)
  by_cases hB : name = e.cityB
  · exact edgeDelta_blocked G t k e name s h hb (Or.inr hB.symm)
  exact edgeDelta_not_incident G t k e name hA hB

lemma lookupS_stepSim_blocked (G : Graph) (name : String) (s : Settlement)
    (h : lookupS name G.nodes = some s) (hb : s.blocked = true) :
    lookupS name (stepSim G).nodes = some s := by
  unfold stepSim
  have h1 : lookupS name (produce_food G 10).nodes = some s := by
    rw [lookupS_produce, h]
    simp [hb]
  have hf : tradeFlows (produce_food G 10) 100 20 name = 0 :=
    tradeFlows_blocked _ _ _ _ _ h1 hb
  rw [lookupS_trade, h1, hf]
  simp

lemma lookupS_simulate_blocked (G : Graph) (name : String) (s : Settlement)
    (h : lookupS name G.nodes = some s) (hb : s.blocked = true) :
    ∀ n, lookupS name (simulate_economy G n).nodes = some s := by
  intro n
  induction n generalizing G with
  | zero => exact h
  | succ n ih =>
    unfold simulate_economy
    exact ih (stepSim G) (lookupS_stepSim_blocked G name s h hb)

/-! ### Total-food conservation machinery -/

lemma sum_keys_delta (G : Graph) (t k : Int) (e : TradeLink)
    (hnd : (nodeKeys G).Nodup) (hA : e.cityA ∈ nodeKeys G) (hB : e.cityB ∈ nodeKeys G) :
    ((nodeKeys G).map fun n => edgeDelta G t k e n).sum = 0 := by
  rcases h1 : lookupS e.cityA G.nodes with _ | sA
  · have hz : ∀ n, edgeDelta G t k e n = 0 := by
      intro n; unfold edgeDelta; simp [h1]
    simp only [hz]
    exact sum_map_zeroF _
  rcases h2 : lookupS e.cityB G.nodes with _ | sB
  · have hz : ∀ n, edgeDelta G t k e n = 0 := by
      intro n; unfold edgeDelta; simp [h1, h2]
    simp only [hz]
    exact sum_map_zeroF _
  by_cases hb : (sA.blocked || sB.blocked) = true
  · have hz : ∀ n, edgeDelta G t k e n = 0 := by
      intro n; unfold edgeDelta; simp [h1, h2, hb]
    simp only [hz]
    exact sum_map_zeroF _
  by_cases h3 : sA.food > t ∧ sB.food < t
  · have hval : ∀ n, edgeDelta G t k e n
        = flowAmt t k sA.food sB.food * (ind n e.cityB - ind n e.cityA) := by
      intro n; unfold edgeDelta; simp [h1, h2, hb, h3]
    simp only [hval]
    rw [sum_map_mulF, sum_map_subF, sum_ind_one _ _ hnd hB, sum_ind_one _ _ hnd hA]
    simp
  by_cases h4 : sB.food > t ∧ sA.food < t
  · have hval : ∀ n, edgeDelta G t k e n
        = flowAmt t k sB.food sA.food * (ind n e.cityA - ind n e.cityB) := by
      intro n; unfold edgeDelta; simp [h1, h2, hb, h3, h4]
    simp only [hval]
    rw [sum_map_mulF, sum_map_subF, sum_ind_one _ _ hnd hA, sum_ind_one _ _ hnd hB]
    simp
  have hz : ∀ n, edgeDelta G t k e n = 0 := by
    intro n; unfold edgeDelta; simp [h1, h2, hb, h3, h4]
  simp only [hz]
  exact sum_map_zeroF _

lemma sum_tradeFlows_zero (G : Graph) (t k : Int) (h : WF G) :
    (G.nodes.map fun p => tradeFlows G t k p.1).sum = 0 := by
  have hkeys : (G.nodes.map fun p => tradeFlows G t k p.1)
      = (nodeKeys G).map fun n => tradeFlows G t k n := by
    unfold nodeKeys
    rw [List.map_map]
    rfl
  rw [hkeys]
  have hflows : ((nodeKeys G).map fun n => tradeFlows G t k n)
      = (nodeKeys G).map fun n => (G.edges.map fun e => edgeDelta G t k e n).sum := by
    apply List.map_congr_left
    intro n _
    exact tradeFlows_eq G t k n
  rw [hflows, sum_map_swapF]
  apply List.sum_eq_zero
  intro x hx
  obtain ⟨e, he, rfl⟩ := List.mem_map.mp hx
  exact sum_keys_delta G t k e h.1 (h.2 e he).1 (h.2 e he).2

lemma totalFood_trade (G : Graph) (t k : Int) :
    totalFood (trade_food G t k)
      = totalFood G + (G.nodes.map fun p => tradeFlows G t k p.1).sum := by
  unfold totalFood trade_food
  simp only [List.map_map]
  rw [← sum_map_addF]
  rfl

/-! ### Lower bounds on flows, for the non-negativity analysis -/

lemma produce_nonneg (G : Graph) (amt : Int) (hamt : 0 ≤ amt)
    (hpos : ∀ p ∈ G.nodes, 0 ≤ p.2.food) :
    ∀ p ∈ (produce_food G amt).nodes, 0 ≤ p.2.food := by
  intro p hp
  unfold produce_food at hp
  obtain ⟨q, hq, rfl⟩ := List.mem_map.mp hp
  by_cases hb : q.2.blocked
  · simp only [hb, if_true]
    exact hpos q hq
  · simp only [hb, if_false]
    have := hpos q hq
    show 0 ≤ q.2.food + amt
    omega

lemma edgeDelta_lower (G : Graph) (t k : Int) (e : TradeLink) (c : String)
    (s : Settlement) (hk : 0 ≤ k) (hs : lookupS c G.nodes = some s) :
    min 0 (t - s.food) ≤ edgeDelta G t k e c := by
  have hmin0 : min 0 (t - s.food) ≤ 0 := min_le_left _ _
  have hminr : min 0 (t - s.food) ≤ t - s.food := min_le_right _ _
  unfold edgeDelta
  rcases h1 : lookupS e.cityA G.nodes with _ | sA
  · simpa using hmin0
  rcases h2 : lookupS e.cityB G.nodes with _ | sB
  · simpa using hmin0
  by_cases hb : (sA.blocked || sB.blocked) = true
  · simp only [hb, if_true]
    exact hmin0
  simp only [hb, Bool.false_eq_true, if_false]
  by_cases h3 : sA.food > t ∧ sB.food < t
  · obtain ⟨h31, h32⟩ := h3
    simp only [h31, h32, and_self, if_true]
    by_cases hcA : c = e.cityA
    · have hsA : sA = s := by
        rw [hcA] at hs
        rw [h1] at hs
        injection hs
      by_cases hcB : c = e.cityB
      · have hAB : e.cityA = e.cityB := by rw [← hcA, ← hcB]
        have hzero : ind c e.cityB - ind c e.cityA = 0 := by
          unfold ind
          simp [hcA, hcB, hAB]
        rw [hzero, mul_zero]
        exact hmin0
      · have hindB : ind c e.cityB = 0 := by unfold ind; simp [hcB]
        have hindA : ind c e.cityA = 1 := by unfold ind; simp [hcA]
        rw [hindB, hindA]
        have hfa : flowAmt t k sA.food sB.food ≤ sA.food - t :=
          le_trans (min_le_left _ _) (min_le_left _ _)
        rw [hsA] at hfa
        have hneg : flowAmt t k sA.food sB.food * (0 - 1)
            = -(flowAmt t k sA.food sB.food) := by ring
        rw [hneg, hsA]
        linarith
    · by_cases hcB : c = e.cityB
      · have hsB : sB = s := by
          rw [hcB] at hs
          rw [h2] at hs
          injection hs
        have hindB : ind c e.cityB = 1 := by unfold ind; simp [hcB]
        have hindA : ind c e.cityA = 0 := by unfold ind; simp [hcA]
        rw [hindB, hindA]
        have hf0 : 0 ≤ flowAmt t k sA.food sB.food := by
          unfold flowAmt
          have ha' : (0 : Int) ≤ sA.food - t := by omega
          have hb' : (0 : Int) ≤ t - sB.food := by omega
          exact le_min (le_min ha' hb') hk
        have hone : flowAmt t k sA.food sB.food * (1 - 0)
            = flowAmt t k sA.food sB.food := by ring
        rw [hone]
        linarith
      · have hindB : ind c e.cityB = 0 := by unfold ind; simp [hcB]
        have hindA : ind c e.cityA = 0 := by unfold ind; simp [hcA]
        rw [hindB, hindA]
        simpa using hmin0
  simp only [h3, if_false]
  by_cases h4 : sB.food > t ∧ sA.food < t
  · obtain ⟨h41, h42⟩ := h4
    simp only [h41, h42, and_self, if_true]
    by_cases hcB : c = e.cityB
    · have hsB : sB = s := by
        rw [hcB] at hs
        rw [h2] at hs
        injection hs
      by_cases hcA : c = e.cityA
      · have hAB : e.cityA = e.cityB := by rw [← hcA, ← hcB]
        have hzero : ind c e.cityA - ind c e.cityB = 0 := by
          unfold ind
          simp [hcA, hcB, hAB]
        rw [hzero, mul_zero]
        exact hmin0
      · have hindA : ind c e.cityA = 0 := by unfold ind; simp [hcA]
        have hindB : ind c e.cityB = 1 := by unfold ind; simp [hcB]
        rw [hindA, hindB]
        have hfa : flowAmt t k sB.food sA.food ≤ sB.food - t :=
          le_trans (min_le_left _ _) (min_le_left _ _)
        rw [hsB] at hfa
        have hneg : flowAmt t k sB.food sA.food * (0 - 1)
            = -(flowAmt t k sB.food sA.food) := by ring
        rw [hneg, hsB]
        linarith
    · by_cases hcA : c = e.cityA
      · have hsA : sA = s := by
          rw [hcA] at hs
          rw [h1] at hs
          injection hs
        have hindA : ind c e.cityA = 1 := by unfold ind; simp [hcA]
        have hindB : ind c e.cityB = 0 := by unfold ind; simp [hcB]
        rw [hindA, hindB]
        have hf0 : 0 ≤ flowAmt t k sB.food sA.food := by
          unfold flowAmt
          have ha' : (0 : Int) ≤ sB.food - t := by omega
          have hb' : (0 : Int) ≤ t - sA.food := by omega
          exact le_min (le_min ha' hb') hk
        have hone : flowAmt t k sB.food sA.food * (1 - 0)
            = flowAmt t k sB.food sA.food := by ring
        rw [hone]
        linarith
      · have hindA : ind c e.cityA = 0 := by unfold ind; simp [hcA]
        have hindB : ind c e.cityB = 0 := by unfold ind; simp [hcB]
        rw [hindA, hindB]
        simpa using hmin0
  simp only [h4, if_false]
  exact hmin0

lemma sumDelta_lower (G : Graph) (t k : Int) (c : String) (s : Settlement)
    (hk : 0 ≤ k) (hs : lookupS c G.nodes = some s) :
    ∀ es : List TradeLink,
      es.countP (fun e => e.cityA == c || e.cityB == c) ≤ 1 →
      min 0 (t - s.food) ≤ (es.map fun e => edgeDelta G t k e c).sum := by
  intro es
  induction es with
  | nil =>
    intro _
    simpa using min_le_left 0 (t - s.food)
  | cons e es ih =>
    intro hdeg
    rw [List.countP_cons] at hdeg
    by_cases hinc : (e.cityA == c || e.cityB == c) = true
    · have h0 : es.countP (fun e => e.cityA == c || e.cityB == c) = 0 := by
        simp only [hinc, if_true] at hdeg
        omega
      have hrest : (es.map fun e => edgeDelta G t k e c).sum = 0 := by
        apply List.sum_eq_zero
        intro x hx
        obtain ⟨e', he', rfl⟩ := List.mem_map.mp hx
        have hne := List.countP_eq_zero.mp h0 e' he'
        rw [Bool.or_eq_true, not_or] at hne
        apply edgeDelta_not_incident
        · exact fun hcc => hne.1 (beq_iff_eq.mpr hcc.symm)
        · exact fun hcc => hne.2 (beq_iff_eq.mpr hcc.symm)
      simp only [List.map_cons, List.sum_cons, hrest, add_zero]
      exact edgeDelta_lower G t k e c s hk hs
    · have hd0 : edgeDelta G t k e c = 0 := by
        rw [Bool.or_eq_true, not_or] at hinc
        apply edgeDelta_not_incident
        · exact fun hcc => hinc.1 (beq_iff_eq.mpr hcc.symm)
        · exact fun hcc => hinc.2 (beq_iff_eq.mpr hcc.symm)
      simp only [List.map_cons, List.sum_cons, hd0, zero_add]
      apply ih
      simp only [hinc, if_false] at hdeg
      omega

/-! ### The claims -/

/-- C1 (counterexample): non-negativity of `resources["food"]` is NOT
preserved by a step. In `hubG` every stock is non-negative and the
production amount 10 is non-negative, yet after produce-then-trade the hub
"X" (at 120, with seven below-threshold neighbors) sends
`min (surplus, deficit, cap) = 20` on each of its seven links and ends at
`120 - 140 = -20 < 0`. -/
theorem C1_cex :
    WF hubG ∧ (∀ p ∈ hubG.nodes, 0 ≤ p.2.food) ∧ (0 : Int) ≤ 10 ∧
    getFood (trade_food (produce_food hubG 10) 100 20) "X" < 0 := by
  decide

/-- C1 (amended): after a step (produce with non-negative amount, then
trade with non-negative threshold and cap), every settlement's food is
still non-negative, PROVIDED every settlement is incident to at most one
trade link. (With several links, a donor above threshold can send up to
`min (surplus, cap)` per link and go negative, as `C1_cex` shows; the
min-of-surplus/deficit/cap construction only bounds each single link.) -/
theorem C1_amended (G : Graph) (amt t k : Int) (hWF : WF G)
    (hdeg : ∀ c ∈ nodeKeys G,
      (G.edges.countP fun e => e.cityA == c || e.cityB == c) ≤ 1)
    (hamt : 0 ≤ amt) (ht : 0 ≤ t) (hk : 0 ≤ k)
    (hpos : ∀ p ∈ G.nodes, 0 ≤ p.2.food) :
    ∀ p ∈ (trade_food (produce_food G amt) t k).nodes, 0 ≤ p.2.food := by
  intro p hp
  have hpos' : ∀ q ∈ (produce_food G amt).nodes, 0 ≤ q.2.food :=
    produce_nonneg G amt hamt hpos
  unfold trade_food at hp
  obtain ⟨q, hq, rfl⟩ := List.mem_map.mp hp
  show 0 ≤ q.2.food + tradeFlows (produce_food G amt) t k q.1
  have hndG' : ((produce_food G amt).nodes.map Prod.fst).Nodup := by
    have hsame : (produce_food G amt).nodes.map Prod.fst
        = nodeKeys (produce_food G amt) := rfl
    rw [hsame, nodeKeys_produce]
    exact hWF.1
  have hlk : lookupS q.1 (produce_food G amt).nodes = some q.2 :=
    lookupS_of_mem _ q.1 q.2 hndG' hq
  have hkey : q.1 ∈ nodeKeys G := by
    rw [← nodeKeys_produce G amt]
    exact List.mem_map.mpr ⟨q, hq, rfl⟩
  have hdeg' : ((produce_food G amt).edges.countP
      fun e => e.cityA == q.1 || e.cityB == q.1) ≤ 1 := hdeg q.1 hkey
  have hbound := sumDelta_lower (produce_food G amt) t k q.1 q.2 hk hlk
    (produce_food G amt).edges hdeg'
  rw [← tradeFlows_eq] at hbound
  have hq2 := hpos' q hq
  rcases min_cases (0 : Int) (t - q.2.food) with ⟨hmin, _⟩ | ⟨hmin, _⟩ <;>
    rw [hmin] at hbound <;> omega

/-- C1 (witness for the amended theorem): in `pairG` (A at 130, B at 80,
one link) a step with amount 10, threshold 100 and cap 20 keeps every
stock non-negative. -/
theorem C1_witness :
    (WF pairG ∧
     (∀ c ∈ nodeKeys pairG,
       (pairG.edges.countP fun e => e.cityA == c || e.cityB == c) ≤ 1) ∧
     (0 : Int) ≤ 10 ∧ (0 : Int) ≤ 100 ∧ (0 : Int) ≤ 20 ∧
     (∀ p ∈ pairG.nodes, 0 ≤ p.2.food)) ∧
    ∀ p ∈ (trade_food (produce_food pairG 10) 100 20).nodes, 0 ≤ p.2.food :=
  ⟨⟨by decide, by decide, by decide, by decide, by decide, by decide⟩,
   C1_amended pairG 10 100 20 (by decide) (by decide) (by decide) (by decide)
     (by decide) (by decide)⟩

/-- C2: a single `trade_food` call is insensitive to the order in which the
trade links are visited — permuting the edge list leaves every
settlement's final food stock unchanged, because each edge's flow is read
off the pre-call stocks and accumulated, and net flows are applied once at
the end. -/
theorem C2_order_independent (G : Graph) (es' : List TradeLink) (t k : Int)
    (hperm : G.edges.Perm es') (name : String) :
    getFood (trade_food { G with edges := es' } t k) name
      = getFood (trade_food G t k) name := by
  have hflows : tradeFlows { G with edges := es' } t k name
      = tradeFlows G t k name := by
    rw [tradeFlows_eq, tradeFlows_eq]
    exact (List.Perm.sum_eq (hperm.map _)).symm
  unfold getFood
  rw [lookupS_trade, lookupS_trade, hflows]

/-- C2 (witness): on `permG`, visiting the two links in the reversed order
gives "A" the same final stock. -/
theorem C2_witness :
    permG.edges.Perm [mkE "A" "C", mkE "A" "B"] ∧
    getFood (trade_food { permG with edges := [mkE "A" "C", mkE "A" "B"] } 100 20) "A"
      = getFood (trade_food permG 100 20) "A" :=
  ⟨List.Perm.swap (mkE "A" "C") (mkE "A" "B") [],
   C2_order_independent permG [mkE "A" "C", mkE "A" "B"] 100 20
     (List.Perm.swap (mkE "A" "C") (mkE "A" "B") []) "A"⟩

/-- C3: after `produce_food` with a non-negative amount, an unblocked
settlement's food has increased by exactly the production amount and a
blocked settlement's food is unchanged. -/
theorem C3_produce_effect (G : Graph) (amt : Int) (name : String) (s : Settlement)
    (hamt : 0 ≤ amt) (h : lookupS name G.nodes = some s) :
    getFood (produce_food G amt) name
      = if s.blocked then s.food else s.food + amt := by
  unfold getFood
  rw [lookupS_produce, h]
  by_cases hb : s.blocked <;> simp [hb]

/-- C3 (witness): in `blockG`, producing 10 leaves blocked "A" at 150. -/
theorem C3_witness :
    ((0 : Int) ≤ 10 ∧ lookupS "A" blockG.nodes = some (mkS true 150)) ∧
    getFood (produce_food blockG 10) "A"
      = if (mkS true 150).blocked then (mkS true 150).food
        else (mkS true 150).food + 10 :=
  ⟨⟨by decide, by decide⟩,
   C3_produce_effect blockG 10 "A" (mkS true 150) (by decide) (by decide)⟩

/-- C4 (counterexample): pairwise conservation over a link's two endpoints
fails as claimed. In `triG` the link A–B has both endpoints unblocked and
both at 90, i.e. neither strictly above the threshold 100 (no direction is
selected on that link), yet a third link A–C lets C (130) send 10 to A, so
the A+B total grows from 180 to 190. -/
theorem C4_cex :
    mkE "A" "B" ∈ triG.edges ∧
    lookupS "A" triG.nodes = some (mkS false 90) ∧
    lookupS "B" triG.nodes = some (mkS false 90) ∧
    (mkS false 90).blocked = false ∧
    ¬(((mkS false 90).food > 100 ∧ (mkS false 90).food < 100) ∨
      ((mkS false 90).food > 100 ∧ (mkS false 90).food < 100)) ∧
    getFood (trade_food triG 100 20) "A" + getFood (trade_food triG 100 20) "B"
      ≠ getFood triG "A" + getFood triG "B" := by
  decide

/-- C4 (amended): for a trade link whose two unblocked endpoints are not
incident to any other link, a `trade_food` call conserves the total food
over the two endpoints (whatever their position relative to the threshold:
either a balanced flow moves across the link, or nothing does). -/
theorem C4_isolated_pair (G : Graph) (t k : Int) (e : TradeLink)
    (sA sB : Settlement) (he : e ∈ G.edges)
    (hA : lookupS e.cityA G.nodes = some sA)
    (hB : lookupS e.cityB G.nodes = some sB)
    (hbA : sA.blocked = false) (hbB : sB.blocked = false)
    (honly : ∀ e' ∈ G.edges, e' = e ∨
      (e'.cityA ≠ e.cityA ∧ e'.cityA ≠ e.cityB ∧
       e'.cityB ≠ e.cityA ∧ e'.cityB ≠ e.cityB)) :
    getFood (trade_food G t k) e.cityA + getFood (trade_food G t k) e.cityB
      = getFood G e.cityA + getFood G e.cityB := by
  have key : tradeFlows G t k e.cityA + tradeFlows G t k e.cityB = 0 := by
    rw [tradeFlows_eq, tradeFlows_eq, ← sum_map_addF]
    apply List.sum_eq_zero
    intro x hx
    obtain ⟨e', he', rfl⟩ := List.mem_map.mp hx
    rcases honly e' he' with rfl | ⟨u1, u2, u3, u4⟩
    · exact edgeDelta_pair G t k e'
    · rw [edgeDelta_not_incident G t k e' e.cityA (fun hcc => u1 hcc.symm)
            (fun hcc => u3 hcc.symm),
          edgeDelta_not_incident G t k e' e.cityB (fun hcc => u2 hcc.symm)
            (fun hcc => u4 hcc.symm)]
      rfl
  have hgA : getFood (trade_food G t k) e.cityA
      = sA.food + tradeFlows G t k e.cityA := by
    unfold getFood
    rw [lookupS_trade, hA]
    rfl
  have hgB : getFood (trade_food G t k) e.cityB
      = sB.food + tradeFlows G t k e.cityB := by
    unfold getFood
    rw [lookupS_trade, hB]
    rfl
  have hgA0 : getFood G e.cityA = sA.food := by
    unfold getFood
    rw [hA]
  have hgB0 : getFood G e.cityB = sB.food := by
    unfold getFood
    rw [hB]
  rw [hgA, hgB, hgA0, hgB0]
  omega

/-- C4 (witness for the amended theorem): the literal A=130 / B=80 pair of
`pairG` conserves 210 across the trade. -/
theorem C4_witness :
    (mkE "A" "B" ∈ pairG.edges ∧
     lookupS "A" pairG.nodes = some (mkS false 130) ∧
     lookupS "B" pairG.nodes = some (mkS false 80) ∧
     (mkS false 130).blocked = false ∧ (mkS false 80).blocked = false ∧
     (∀ e' ∈ pairG.edges, e' = mkE "A" "B" ∨
       (e'.cityA ≠ "A" ∧ e'.cityA ≠ "B" ∧ e'.cityB ≠ "A" ∧ e'.cityB ≠ "B"))) ∧
    getFood (trade_food pairG 100 20) "A" + getFood (trade_food pairG 100 20) "B"
      = getFood pairG "A" + getFood pairG "B" :=
  ⟨⟨by decide, by decide, by decide, by decide, by decide, by decide⟩,
   C4_isolated_pair pairG 100 20 (mkE "A" "B") (mkS false 130) (mkS false 80)
     (by decide) (by decide) (by decide) (by decide) (by decide) (by decide)⟩

/-- C5: a blocked settlement's food is untouched by any later
`produce_food`, by any later `trade_food` (the edge-loop body skips every
link incident to it, for any accumulator state), and by any number of
simulation steps. -/
theorem C5_blocked_frozen (G : Graph) (name : String) (s : Settlement)
    (h : lookupS name G.nodes = some s) (hb : s.blocked = true) :
    (∀ amt, getFood (produce_food G amt) name = getFood G name) ∧
    (∀ t k, getFood (trade_food G t k) name = getFood G name) ∧
    (∀ t k flows e, e ∈ G.edges → (e.cityA = name ∨ e.cityB = name) →
      edgeStep G t k flows e = flows) ∧
    (∀ n, getFood (simulate_economy G n) name = getFood G name) := by
  refine ⟨?_, ?_, ?_, ?_⟩
  · intro amt
    unfold getFood
    rw [lookupS_produce, h]
    simp [hb]
  · intro t k
    unfold getFood
    rw [lookupS_trade, h, tradeFlows_blocked G t k name s h hb]
    simp
  · intro t k flows e _ hinc
    exact edgeStep_blocked G t k e name s h hb hinc flows
  · intro n
    unfold getFood
    rw [lookupS_simulate_blocked G name s h hb n, h]

/-- C5 (witness): blocked "A" in `blockG` stays at 150 under production,
trade, link skipping, and whole simulation runs. -/
theorem C5_witness :
    (lookupS "A" blockG.nodes = some (mkS true 150) ∧
     (mkS true 150).blocked = true) ∧
    ((∀ amt, getFood (produce_food blockG amt) "A" = getFood blockG "A") ∧
     (∀ t k, getFood (trade_food blockG t k) "A" = getFood blockG "A") ∧
     (∀ t k flows e, e ∈ blockG.edges → (e.cityA = "A" ∨ e.cityB = "A") →
       edgeStep blockG t k flows e = flows) ∧
     (∀ n, getFood (simulate_economy blockG n) "A" = getFood blockG "A")) :=
  ⟨⟨by decide, by decide⟩,
   C5_blocked_frozen blockG "A" (mkS true 150) (by decide) (by decide)⟩

/-- C6: on a link whose two unblocked endpoints include one sitting exactly
at the threshold, neither strict comparison selects a direction, so the
edge-loop body of `trade_food` leaves the accumulator unchanged — no flow
on that link. -/
theorem C6_at_threshold (G : Graph) (t k : Int) (e : TradeLink)
    (sA sB : Settlement) (he : e ∈ G.edges)
    (hA : lookupS e.cityA G.nodes = some sA)
    (hB : lookupS e.cityB G.nodes = some sB)
    (hbA : sA.blocked = false) (hbB : sB.blocked = false)
    (hthr : sA.food = t ∨ sB.food = t) :
    (∀ flows, edgeStep G t k flows e = flows) ∧
    (∀ c, edgeDelta G t k e c = 0) := by
  have h3 : ¬(sA.food > t ∧ sB.food < t) := by
    rcases hthr with h' | h' <;> omega
  have h4 : ¬(sB.food > t ∧ sA.food < t) := by
    rcases hthr with h' | h' <;> omega
  constructor
  · intro flows
    unfold edgeStep
    simp only [hA, hB, hbA, hbB, Bool.or_self, Bool.false_eq_true, if_false,
      h3, h4, if_true]
  · intro c
    unfold edgeDelta
    simp only [hA, hB, hbA, hbB, Bool.or_self, Bool.false_eq_true, if_false]
    simp [h3, h4]

/-- C6 (witness): in `atThrG`, A sits exactly at the threshold 100, so the
link to the surplus city B moves nothing. -/
theorem C6_witness :
    (mkE "A" "B" ∈ atThrG.edges ∧
     lookupS "A" atThrG.nodes = some (mkS false 100) ∧
     lookupS "B" atThrG.nodes = some (mkS false 130) ∧
     (mkS false 100).blocked = false ∧ (mkS false 130).blocked = false ∧
     ((mkS false 100).food = 100 ∨ (mkS false 130).food = 100)) ∧
    ((∀ flows, edgeStep atThrG 100 20 flows (mkE "A" "B") = flows) ∧
     (∀ c, edgeDelta atThrG 100 20 (mkE "A" "B") c = 0)) :=
  ⟨⟨by decide, by decide, by decide, by decide, by decide, by decide⟩,
   C6_at_threshold atThrG 100 20 (mkE "A" "B") (mkS false 100) (mkS false 130)
     (by decide) (by decide) (by decide) (by decide) (by decide) (by decide)⟩

/-- C7: the literal scenario — A at 130 and B at 80 linked, threshold 100,
cap 20: the flow is `min (min 30 20) 20 = 20`, leaving A at 110 and B at
100 (net flows −20 on A, +20 on B). -/
theorem C7_literal_scenario :
    flowAmt 100 20 130 80 = min (min 30 20) 20 ∧
    flowAmt 100 20 130 80 = 20 ∧
    tradeFlows pairG 100 20 "A" = -20 ∧
    tradeFlows pairG 100 20 "B" = 20 ∧
    getFood (trade_food pairG 100 20) "A" = 110 ∧
    getFood (trade_food pairG 100 20) "B" = 100 := by
  decide

/-- C8: when both endpoints of every link are blocked, `trade_food` is a
no-op on the whole graph — the returned graph is equal to the input,
including every node attribute and every edge. -/
theorem C8_all_blocked_noop (G : Graph) (t k : Int)
    (h : ∀ e ∈ G.edges,
      (lookupS e.cityA G.nodes).map Settlement.blocked = some true ∧
      (lookupS e.cityB G.nodes).map Settlement.blocked = some true) :
    trade_food G t k = G := by
  have hflow : ∀ c, tradeFlows G t k c = 0 := by
    intro c
    rw [tradeFlows_eq]
    apply List.sum_eq_zero
    intro x hx
    obtain ⟨e, he, rfl⟩ := List.mem_map.mp hx
    obtain ⟨hbA, hbB⟩ := h e he
    unfold edgeDelta
    rcases h1 : lookupS e.cityA G.nodes with _ | sA
    · simp
    rcases h2 : lookupS e.cityB G.nodes with _ | sB
    · simp
    rw [h1] at hbA
    simp at hbA
    simp [hbA]
  have hmap : (fun p : String × Settlement =>
      (p.1, { p.2 with food := p.2.food + tradeFlows G t k p.1 }))
      = fun p => p := by
    funext p
    rw [hflow p.1, Int.add_zero]
  unfold trade_food
  rw [hmap, List.map_id']

/-- C8 (witness): on `allBlockG` (both cities blocked), trade returns the
graph unchanged. -/
theorem C8_witness :
    (∀ e ∈ allBlockG.edges,
      (lookupS e.cityA allBlockG.nodes).map Settlement.blocked = some true ∧
      (lookupS e.cityB allBlockG.nodes).map Settlement.blocked = some true) ∧
    trade_food allBlockG 100 20 = allBlockG :=
  ⟨by decide, C8_all_blocked_noop allBlockG 100 20 (by decide)⟩

/-- C9: a `trade_food` call conserves total food over the whole graph:
every flow is subtracted from one accumulator entry and added to exactly
one other, so the net flows sum to zero. -/
theorem C9_total_conserved (G : Graph) (t k : Int) (h : WF G) :
    totalFood (trade_food G t k) = totalFood G := by
  rw [totalFood_trade, sum_tradeFlows_zero G t k h, add_zero]

/-- C9 (witness): on `triG`, trade leaves the 310 total unchanged. -/
theorem C9_witness :
    WF triG ∧ totalFood (trade_food triG 100 20) = totalFood triG :=
  ⟨by decide, C9_total_conserved triG 100 20 (by decide)⟩

/-- C10: `produce_food` and `trade_food` mutate only food stocks: every
settlement's blocked flag, position and country are unchanged, and the
edge list — hence every link's distance and capacity — is returned
untouched. -/
theorem C10_frame (G : Graph) (amt t k : Int) (name : String) :
    (produce_food G amt).edges = G.edges ∧
    (trade_food G t k).edges = G.edges ∧
    (lookupS name (produce_food G amt).nodes).map Settlement.blocked
      = (lookupS name G.nodes).map Settlement.blocked ∧
    (lookupS name (produce_food G amt).nodes).map Settlement.pos
      = (lookupS name G.nodes).map Settlement.pos ∧
    (lookupS name (produce_food G amt).nodes).map Settlement.country
      = (lookupS name G.nodes).map Settlement.country ∧
    (lookupS name (trade_food G t k).nodes).map Settlement.blocked
      = (lookupS name G.nodes).map Settlement.blocked ∧
    (lookupS name (trade_food G t k).nodes).map Settlement.pos
      = (lookupS name G.nodes).map Settlement.pos ∧
    (lookupS name (trade_food G t k).nodes).map Settlement.country
      = (lookupS name G.nodes).map Settlement.country := by
  refine ⟨rfl, rfl, ?_, ?_, ?_, ?_, ?_, ?_⟩
  · rw [lookupS_produce]
    rcases lookupS name G.nodes with _ | s
    · rfl
    · by_cases hb : s.blocked <;> simp [hb]
  · rw [lookupS_produce]
    rcases lookupS name G.nodes with _ | s
    · rfl
    · by_cases hb : s.blocked <;> simp [hb]
  · rw [lookupS_produce]
    rcases lookupS name G.nodes with _ | s
    · rfl
    · by_cases hb : s.blocked <;> simp [hb]
  · rw [lookupS_trade]
    rcases lookupS name G.nodes with _ | s
    · rfl
    · simp
  · rw [lookupS_trade]
    rcases lookupS name G.nodes with _ | s
    · rfl
    · simp
  · rw [lookupS_trade]
    rcases lookupS name G.nodes with _ | s
    · rfl
    · simp

end ConflictModel
